import Mathlib

/-!
# Verification of the mcp-file-compaction context cache and lifecycle controller

This development gives a shallow embedding, in Lean 4, of the state-management
core of the `mcp-file-compaction` MCP server (`src/state.ts`, `src/tools.ts`,
`src/parsers/index.ts`, `src/parsers/rust.ts`) and proves properties of the
cache operations (`setSummary`, `isStale`, `forget`, eviction), of the tool
operations (`readFile`, `peekFile`, `editFile`, `writeFile`, `fileStatus`,
`forgetFile`), and of the Rust summary renderer (`formatSummary`).

Modelling conventions:
* JavaScript `Map` objects are modelled as insertion-ordered association lists
  (`alGet` / `alSet` / `alDelete`), matching `Map.get` / `Map.set` /
  `Map.delete` semantics (in particular `Map.set` on an existing key updates
  the value in place and keeps the original insertion position).
* The filesystem is an association list from absolute path to file content;
  a missing key models an unreadable file (`fs.readFileSync` throwing).
* External collaborators declared out of scope by the design (the Node `path`
  library, the sha256 content hash, the tree-sitter parsing backend, the
  wall clock) are passed in as function parameters of an `Env` record; for
  concrete evaluation we instantiate them with simple concrete functions.
* The possibly-nonterminating eviction loop of `ContextState.evictIfNeeded`
  (a `while` loop that pops from `accessOrder`) is modelled as a recursion
  on the recency list that returns `none` exactly when the JavaScript loop
  would spin forever (empty recency list with the map still over the limit).
  Consequently the state-mutating operations return `Option` results, with
  `none` denoting divergence.
* JavaScript string operations used by `editFile` (`String.prototype.split`,
  `includes`, `replace` with a string pattern) are embedded on `List Char`
  with their exact JS semantics, including the empty-separator edge cases and
  the ECMAScript `GetSubstitution` expansion of replacement patterns.
-/

/-! ## JavaScript string primitives -/

/-- JS `pat.length <= s.length && s.startsWith(pat)` on character lists:
`strStartsWith pat s` is true iff `pat` is a prefix of `s`. -/
def strStartsWith : List Char → List Char → Bool
  | [], _ => true
  | _ :: _, [] => false
  | a :: as, b :: bs => a = b && strStartsWith as bs

/-- JS `s.includes(pat)`: substring test. -/
def strIncludes : List Char → List Char → Bool
  | s, pat =>
    if strStartsWith pat s then true
    else match s with
      | [] => false
      | _ :: t => strIncludes t pat

/-- Worker for JS `s.split(pat)` with a non-empty separator `p :: ps`:
scans left to right, cutting at each leftmost non-overlapping occurrence.
`fuel` bounds the recursion; it is at least the length of the remaining
input on every call made from `splitJS`. -/
def splitGoF (p : Char) (ps : List Char) : Nat → List Char → List Char → List (List Char)
  | _, acc, [] => [acc.reverse]
  | 0, acc, _ :: _ => [acc.reverse]
  | fuel + 1, acc, c :: t =>
    if strStartsWith (p :: ps) (c :: t) then
      acc.reverse :: splitGoF p ps fuel [] (t.drop ps.length)
    else
      splitGoF p ps fuel (c :: acc) t

/-- JS `s.split(pat)` on character lists, including the empty-separator case
(`"ab".split("") = ["a","b"]`, `"".split("") = []`). -/
def splitJS (s pat : List Char) : List (List Char) :=
  match pat with
  | [] => s.map (fun c => [c])
  | p :: ps => splitGoF p ps s.length [] s

/-- `content.split(oldString).length - 1`, the occurrence count computed by
`editFile` in `src/tools.ts`.  An `Int` because JS evaluates
`"".split("").length - 1` to `-1`. -/
def occurrencesJS (s pat : List Char) : Int :=
  (splitJS s pat).length - 1

/-- The backquote character (code point 96). -/
def backquoteChar : Char := Char.ofNat 96

/-- The single-quote character (code point 39). -/
def squoteChar : Char := Char.ofNat 39

/-- ECMAScript `GetSubstitution` for a string search value: expands the
replacement template.  `$$` is a literal dollar, `$&` the matched substring,
a dollar followed by a backquote the portion of the string preceding the
match, a dollar followed by a quote the portion following the match; any
other dollar (including `$n` and a dollar followed by an angle bracket, which
have no capture groups for a string pattern, and a trailing dollar) is kept
literally. -/
def getSubstitution (matched pre post : List Char) : List Char → List Char
  | [] => []
  | c :: t =>
    if c = '$' then
      match t with
      | [] => [c]
      | d :: t2 =>
        if d = '$' then d :: getSubstitution matched pre post t2
        else if d = '&' then matched ++ getSubstitution matched pre post t2
        else if d = backquoteChar then pre ++ getSubstitution matched pre post t2
        else if d = squoteChar then post ++ getSubstitution matched pre post t2
        else c :: getSubstitution matched pre post (d :: t2)
    else c :: getSubstitution matched pre post t

/-- Worker for JS `s.replace(pat, new)` with a non-empty string pattern
`p :: ps`: replaces the leftmost occurrence only, expanding the replacement
template with `GetSubstitution`.  `seen` is the reversed portion of the
string already scanned (it supplies the preceding-portion argument). -/
def replGo (p : Char) (ps newStr : List Char) : List Char → List Char → List Char
  | _, [] => []
  | seen, c :: t =>
    if strStartsWith (p :: ps) (c :: t) then
      getSubstitution (p :: ps) seen.reverse (t.drop ps.length) newStr ++ t.drop ps.length
    else c :: replGo p ps newStr (c :: seen) t

/-- JS `s.replace(pat, new)` with a string pattern: replaces the first
occurrence, applying ECMAScript `GetSubstitution` to the replacement; with an
empty pattern the match is the empty string at position 0. -/
def replaceFirstJS (s pat newStr : List Char) : List Char :=
  match pat with
  | [] => getSubstitution [] [] s newStr ++ s
  | p :: ps => replGo p ps newStr [] s

/-- JS `s.trim()` (modelled with Lean's whitespace predicate, which covers
the ASCII whitespace actually occurring in summaries). -/
def trimJS (s : String) : String :=
  String.mk (((s.data.dropWhile Char.isWhitespace).reverse.dropWhile Char.isWhitespace).reverse)

/-- JS `array.join('\n')`. -/
def joinNL : List String → String
  | [] => ""
  | [x] => x
  | x :: xs => x ++ "\n" ++ joinNL xs

/-- JS `s.split('\n')` on strings. -/
def splitLinesJS (s : String) : List String :=
  (splitJS s.data ['\n']).map String.mk

/-- JS `s.toLowerCase()` (ASCII, sufficient for file extensions). -/
def lowerAscii (s : String) : String :=
  String.mk (s.data.map Char.toLower)

/-- JS `s.padEnd(n)`. -/
def padEndJS (s : String) (n : Nat) : String :=
  s ++ String.mk (List.replicate (n - s.data.length) ' ')

/-- JS `s.padStart(n)`. -/
def padStartJS (s : String) (n : Nat) : String :=
  String.mk (List.replicate (n - s.data.length) ' ') ++ s

/-! ## Insertion-ordered association lists (the model of JS `Map`) -/

/-- `Map.get`: value of the first entry with the given key. -/
def alGet {β : Type} : List (String × β) → String → Option β
  | [], _ => none
  | (k', v) :: t, k => if k' = k then some v else alGet t k

/-- `Map.set`: update in place when the key exists (keeping insertion order),
otherwise append at the end. -/
def alSet {β : Type} (m : List (String × β)) (k : String) (v : β) : List (String × β) :=
  if (alGet m k).isSome then
    m.map (fun kv => if kv.1 = k then (k, v) else kv)
  else
    m ++ [(k, v)]

/-- `Map.delete` (the resulting map; the returned boolean is `(alGet m k).isSome`). -/
def alDelete {β : Type} (m : List (String × β)) (k : String) : List (String × β) :=
  m.filter (fun kv => !(kv.1 = k : Bool))

/-! ## The filesystem model -/

/-- On-disk state: absolute path to current content.  A path that is absent
cannot be read (`fs.readFileSync` throws). -/
def Disk : Type := List (String × String)

/-- `fs.readFileSync(p, 'utf8')`, `none` when the read throws. -/
def diskRead (d : Disk) (p : String) : Option String :=
  alGet d p

/-- `fs.writeFileSync(p, c, 'utf8')`. -/
def diskWrite (d : Disk) (p : String) (c : String) : Disk :=
  alSet d p c

/-! ## The data model of `src/state.ts` -/

/-- `CachedSummary` from `src/state.ts` (the `Date` timestamp is modelled as a
natural number). -/
structure CachedSummaryM where
  summary : String
  contentHash : String
  fullSize : Nat
  summarySize : Nat
  lastAccessed : Nat
  relativePath : String
  deriving DecidableEq, Repr

/-- `ContextState` from `src/state.ts`, with `ContextConfig` inlined. -/
structure ContextState where
  activeFile : Option String
  summaries : List (String × CachedSummaryM)
  accessOrder : List String
  maxTrackedFiles : Nat
  maxDocLines : Nat
  projectRoot : String
  deriving DecidableEq, Repr

/-- Outcome of a per-language extractor (`ParseOutcome` in `src/parsers`):
either a rendered summary or a parse diagnostic. -/
inductive ParseOutcomeM where
  | success (formattedSummary : String)
  | failure (error : String)
  deriving DecidableEq, Repr

/-- External collaborators, passed as parameters:
* `normalize` models `ContextState.normalizePath`
  (`isAbsolute ? path.normalize : path.resolve`);
* `resolve` models the `isAbsolute ? filePath : path.resolve(filePath)`
  computation at the top of every tool in `src/tools.ts`;
* `relOf` models `getRelativePath` (`path.relative(projectRoot, ·)`);
* `extname` models `path.extname`;
* `hash` models the sha256 content hash (`hashContent`);
* `parse` models `parseFile` from `src/parsers/index.ts` (the tree-sitter
  backed extractors; `none` models the `null` result for an unsupported path);
* `now` models `new Date()`. -/
structure Env where
  normalize : String → String
  resolve : String → String
  relOf : String → String
  extname : String → String
  hash : String → String
  parse : String → String → Option ParseOutcomeM
  now : Nat

/-- A fresh `ContextState` as built by the constructor. -/
def initState (maxTracked : Nat) : ContextState :=
  { activeFile := none, summaries := [], accessOrder := [],
    maxTrackedFiles := maxTracked, maxDocLines := 5, projectRoot := "/" }

/-! ## `ContextState` operations -/

/-- `updateAccessOrder`: drop any previous occurrence, push at the end. -/
def updateAccessOrder (order : List String) (p : String) : List String :=
  order.filter (fun q => !(q = p : Bool)) ++ [p]

/-- `setActiveFile`: returns the previous active file and the new state. -/
def setActiveFileModel (env : Env) (s : ContextState) (filePath : String) :
    Option String × ContextState :=
  let np := env.normalize filePath
  (s.activeFile,
   { s with activeFile := some np, accessOrder := updateAccessOrder s.accessOrder np })

/-- The `while` loop of `evictIfNeeded`:
`while (summaries.size > maxTrackedFiles) { const oldest = accessOrder.shift();
if (oldest && oldest !== activeFile) summaries.delete(oldest); }`.
Returns the remaining recency list and map, or `none` when the JS loop spins
forever (recency list exhausted with the map still over the limit: the loop
body then does nothing and the condition never changes). -/
def evictGo (active : Option String) (maxT : Nat) :
    List String → List (String × CachedSummaryM) →
    Option (List String × List (String × CachedSummaryM))
  | [], m => if m.length ≤ maxT then some ([], m) else none
  | oldest :: rest, m =>
    if m.length ≤ maxT then some (oldest :: rest, m)
    else if oldest ≠ "" ∧ some oldest ≠ active then
      evictGo active maxT rest (alDelete m oldest)
    else
      evictGo active maxT rest m

/-- The `CachedSummary` record built by `setSummary`. -/
def mkCached (env : Env) (filePath summary fullContent : String) : CachedSummaryM :=
  { summary := summary
    contentHash := env.hash fullContent
    fullSize := fullContent.utf8ByteSize
    summarySize := summary.utf8ByteSize
    lastAccessed := env.now
    relativePath := env.relOf filePath }

/-- The map after the `summaries.set(normalizedPath, {...})` step of
`setSummary`, before eviction. -/
def setSummaryInsert (env : Env) (s : ContextState) (filePath summary fullContent : String) :
    List (String × CachedSummaryM) :=
  alSet s.summaries (env.normalize filePath) (mkCached env filePath summary fullContent)

/-- `setSummary`: store the entry, bump recency, then run eviction.
`none` when the eviction loop diverges. -/
def setSummaryModel (env : Env) (s : ContextState) (filePath summary fullContent : String) :
    Option ContextState :=
  let np := env.normalize filePath
  let m := setSummaryInsert env s filePath summary fullContent
  let order := updateAccessOrder s.accessOrder np
  (evictGo s.activeFile s.maxTrackedFiles order m).map
    (fun om => { s with accessOrder := om.1, summaries := om.2 })

/-- `isStale`: true when there is no entry, when the file cannot be read, or
when the hash of the current content differs from the stored hash.  Note the
map is keyed by the normalized path while the disk read uses the path as
given, exactly as in the source. -/
def isStaleModel (env : Env) (disk : Disk) (s : ContextState) (filePath : String) : Bool :=
  match alGet s.summaries (env.normalize filePath) with
  | none => true
  | some cached =>
    match diskRead disk filePath with
    | none => true
    | some current => !(env.hash current = cached.contentHash : Bool)

/-- `forget`: returns whether an entry existed, deletes it, clears the active
pointer when it pointed at the normalized path, and removes the path from the
recency list. -/
def forgetModel (env : Env) (s : ContextState) (filePath : String) : Bool × ContextState :=
  let np := env.normalize filePath
  ((alGet s.summaries np).isSome,
   { s with
     summaries := alDelete s.summaries np
     activeFile := if s.activeFile = some np then none else s.activeFile
     accessOrder := s.accessOrder.filter (fun q => !(q = np : Bool)) })

/-- One row of `getStatus().summaries`. -/
structure StatusRow where
  path : String
  relativePath : String
  fullSize : Nat
  summarySize : Nat
  savings : Int
  lastAccessed : Nat
  deriving DecidableEq, Repr

/-- `getStatus`. -/
def getStatusModel (s : ContextState) :
    Option String × List StatusRow × Nat × Nat × Int :=
  let rows := s.summaries.map (fun kv =>
    { path := kv.1, relativePath := kv.2.relativePath, fullSize := kv.2.fullSize,
      summarySize := kv.2.summarySize,
      savings := (kv.2.fullSize : Int) - (kv.2.summarySize : Int),
      lastAccessed := kv.2.lastAccessed : StatusRow })
  let totalFull := rows.foldl (fun n r => n + r.fullSize) 0
  let totalSummary := rows.foldl (fun n r => n + r.summarySize) 0
  (s.activeFile, rows, totalFull, totalSummary, (totalFull : Int) - (totalSummary : Int))

/-! ## Parser registry surface (`src/parsers/index.ts`) -/

/-- `SUPPORTED_EXTENSIONS`. -/
def SUPPORTED_EXTENSIONS : List String :=
  [".rs", ".py", ".ts", ".tsx", ".js", ".jsx", ".php", ".cs", ".gd"]

/-- `isSupported`: lower-cased `path.extname` is in the supported set. -/
def isSupportedB (env : Env) (filePath : String) : Bool :=
  SUPPORTED_EXTENSIONS.contains (lowerAscii (env.extname filePath))

/-- `formatFileHeader` from `src/parsers/index.ts` / `src/index.ts`. -/
def formatFileHeaderM (relativePath : String) (isSummary : Bool) : String :=
  "// === " ++ relativePath ++ " [" ++ (if isSummary then "SUMMARY" else "FULL") ++ "] ==="

/-! ## Tool models (`src/tools.ts`)

Every tool returns `Option ((Except String String) × ContextState × Disk)`:
`none` models divergence of the eviction loop, `Except.error` models a thrown
exception (with the error message), `Except.ok` the returned text.  The state
and disk components are the post-call context state and filesystem. -/

/-- The message of the `fs.readFileSync` exception for a missing file
(modelled; the exact Node wording is irrelevant to every property below). -/
def readErrMsg (p : String) : String :=
  "ENOENT: no such file or directory, open " ++ p

/-- JS truthiness of a nullable string: `null` and `""` are both falsy. -/
def optTruthy : Option String → Option String
  | some "" => none
  | o => o

/-- `summarizeFile` (internal): best-effort summarize-and-cache; read and
parse failures are swallowed.  `none` models divergence inside `setSummary`. -/
def summarizeModel (env : Env) (disk : Disk) (s : ContextState) (filePath : String) :
    Option ContextState :=
  match diskRead disk filePath with
  | none => some s
  | some content =>
    match env.parse filePath content with
    | some (.success f) => setSummaryModel env s filePath f content
    | _ => some s

/-- The `if (previousActive && previousActive !== absolutePath) await
summarizeFile(previousActive)` step shared by `readFile`, `editFile` and
`writeFile` (the `&&` also tests string truthiness). -/
def summarizePrevModel (env : Env) (disk : Disk) (s : ContextState) (absolutePath : String) :
    Option ContextState :=
  match s.activeFile with
  | some prev =>
    if prev ≠ "" ∧ prev ≠ absolutePath then summarizeModel env disk s prev else some s
  | none => some s

/-- `readFile`. -/
def readFileModel (env : Env) (disk : Disk) (s : ContextState) (filePath : String) :
    Option ((Except String String) × ContextState × Disk) :=
  let ap := env.resolve filePath
  match diskRead disk ap with
  | none => some (.error (readErrMsg ap), s, disk)
  | some content =>
    let rel := env.relOf ap
    if isSupportedB env ap then
      (summarizePrevModel env disk s ap).map (fun s1 =>
        let s2 := (setActiveFileModel env s1 ap).2
        (.ok (formatFileHeaderM rel false ++ "\n\n" ++ content), s2, disk))
    else
      some (.ok (formatFileHeaderM rel false ++
        "\n// (Unsupported file type - not tracked for compaction)\n\n" ++ content), s, disk)

/-- `peekFile`. -/
def peekFileModel (env : Env) (disk : Disk) (s : ContextState) (filePath : String) :
    Option ((Except String String) × ContextState × Disk) :=
  let ap := env.resolve filePath
  match diskRead disk ap with
  | none => some (.error (readErrMsg ap), s, disk)
  | some content =>
    let rel := env.relOf ap
    if isSupportedB env ap then
      if s.activeFile = some (env.normalize ap) then
        some (.ok (formatFileHeaderM rel false ++ "\n// (This is the active file)\n\n" ++ content),
          s, disk)
      else
        match alGet s.summaries (env.normalize ap), isStaleModel env disk s ap with
        | some cached, false =>
          some (.ok (formatFileHeaderM rel true ++ "\n\n" ++ cached.summary), s, disk)
        | _, _ =>
          match env.parse ap content with
          | some (.success f) =>
            (setSummaryModel env s ap f content).map (fun s1 =>
              (.ok (formatFileHeaderM rel true ++ "\n\n" ++ f), s1, disk))
          | r =>
            some (.ok (formatFileHeaderM rel false ++ "\n// (Could not generate summary" ++
              (match r with
               | some (.failure e) => " (Parse error: " ++ e ++ ")"
               | _ => "") ++ ")\n\n" ++ content), s, disk)
    else
      some (.ok (formatFileHeaderM rel false ++
        "\n// (Unsupported file type - returning full contents)\n\n" ++ content), s, disk)

/-- The "not found" message thrown by `editFile`. -/
def editNotFoundMsg (rel : String) : String :=
  "The specified old_string was not found in " ++ rel ++
  ". Make sure you're using the exact string including whitespace and indentation."

/-- The "appears N times" message thrown by `editFile`. -/
def editAmbiguousMsg (occurrences : Int) (rel : String) : String :=
  "The specified old_string appears " ++ toString occurrences ++ " times in " ++ rel ++
  ". Please provide a more specific string that uniquely identifies the location."

/-- `editFile`. -/
def editFileModel (env : Env) (disk : Disk) (s : ContextState)
    (filePath oldString newString : String) :
    Option ((Except String String) × ContextState × Disk) :=
  let ap := env.resolve filePath
  let rel := env.relOf ap
  match diskRead disk ap with
  | none => some (.error (readErrMsg ap), s, disk)
  | some content =>
    if !(strIncludes content.data oldString.data) then
      some (.error (editNotFoundMsg rel), s, disk)
    else
      let occurrences := occurrencesJS content.data oldString.data
      if 1 < occurrences then
        some (.error (editAmbiguousMsg occurrences rel), s, disk)
      else
        let newContent := String.mk (replaceFirstJS content.data oldString.data newString.data)
        let disk1 := diskWrite disk ap newContent
        if isSupportedB env ap then
          (summarizePrevModel env disk1 s ap).bind (fun s1 =>
            let s2 := (setActiveFileModel env s1 ap).2
            match env.parse ap newContent with
            | some (.success f) =>
              (setSummaryModel env s2 ap f newContent).map (fun s3 =>
                (.ok ("Successfully edited " ++ rel), s3, disk1))
            | _ => some (.ok ("Successfully edited " ++ rel), s2, disk1))
        else
          some (.ok ("Successfully edited " ++ rel ++ " (unsupported file type - not tracked)"),
            s, disk1)

/-- `writeFile` (`mkdirSync` is modelled as always succeeding). -/
def writeFileModel (env : Env) (disk : Disk) (s : ContextState) (filePath content : String) :
    Option ((Except String String) × ContextState × Disk) :=
  let ap := env.resolve filePath
  let rel := env.relOf ap
  let disk1 := diskWrite disk ap content
  if isSupportedB env ap then
    (summarizePrevModel env disk1 s ap).bind (fun s1 =>
      let s2 := (setActiveFileModel env s1 ap).2
      match env.parse ap content with
      | some (.success f) =>
        (setSummaryModel env s2 ap f content).map (fun s3 =>
          (.ok ("Successfully wrote " ++ rel), s3, disk1))
      | _ => some (.ok ("Successfully wrote " ++ rel), s2, disk1))
  else
    some (.ok ("Successfully wrote " ++ rel ++ " (unsupported file type - not tracked)"), s, disk1)

/-- `forgetFile`. -/
def forgetFileModel (env : Env) (s : ContextState) (filePath : String) :
    String × ContextState :=
  let ap := env.resolve filePath
  let rel := env.relOf ap
  let ws := forgetModel env s ap
  (if ws.1 then "Removed " ++ rel ++ " from tracking"
   else rel ++ " was not being tracked", ws.2)

/-- `formatSize` (the `toFixed(1)` float formatting is modelled by
round-half-up decimal division; no property below depends on its output). -/
def formatSizeM (bytes : Int) : String :=
  if bytes < 1024 then toString bytes ++ " B"
  else if bytes < 1024 * 1024 then
    let tenths := (bytes * 10 + 512) / 1024
    toString (tenths / 10) ++ "." ++ toString (tenths % 10) ++ " KB"
  else
    let tenths := (bytes * 10 + 524288) / (1024 * 1024)
    toString (tenths / 10) ++ "." ++ toString (tenths % 10) ++ " MB"

/-- The `toFixed(0)` percentage of `fileStatus` (modelled by round-half
integer division; no property below depends on its output). -/
def percentM (savings : Int) (total : Int) : String :=
  if savings ≥ 0 then toString ((savings * 100 + total / 2) / total)
  else "-" ++ toString (((-savings) * 100 + total / 2) / total)

/-- `fileStatus`.  `Except.error ()` models an uncaught exception escaping the
tool: the only such exception is the *unguarded* `fs.readFileSync` of the
active file inside the totals block (the first read of the active file is
wrapped in try/catch, the second is not). -/
def fileStatusModel (env : Env) (disk : Disk) (s : ContextState) : Except Unit String :=
  let st := getStatusModel s
  let activeLines :=
    match optTruthy st.1 with
    | some a =>
      match diskRead disk a with
      | some content =>
        ["Active: " ++ env.relOf a ++ " (full, " ++ formatSizeM content.utf8ByteSize ++ ")"]
      | none => ["Active: " ++ env.relOf a ++ " (file not found)"]
    | none => ["Active: (none)"]
  let cacheLines :=
    if st.2.1.length > 0 then
      "Cached Summaries:" ::
        st.2.1.map (fun r =>
          "  " ++ padEndJS r.relativePath 40 ++ " " ++ padStartJS (formatSizeM r.summarySize) 8 ++
          " (was " ++ formatSizeM r.fullSize ++ ", saved " ++ formatSizeM r.savings ++ ")") ++ [""]
    else ["Cached Summaries: (none)", ""]
  if st.2.1.length > 0 then
    match optTruthy st.1 with
    | some a =>
      match diskRead disk a with
      | none => .error ()
      | some content =>
        let activeSize : Int := content.utf8ByteSize
        let totalContext := activeSize + st.2.2.2.1
        let totalWithout := activeSize + st.2.2.1
        let savingsPercent :=
          if totalWithout > 0 then percentM st.2.2.2.2 totalWithout else "0"
        .ok (joinNL (["Context Status", "==============", ""] ++ activeLines ++ [""] ++
          cacheLines ++
          ["Total Context:        " ++ formatSizeM totalContext,
           "Without Compaction:   " ++ formatSizeM totalWithout,
           "Savings:              " ++ formatSizeM st.2.2.2.2 ++ " (" ++ savingsPercent ++ "%)"]))
    | none =>
      let totalContext := (0 : Int) + st.2.2.2.1
      let totalWithout := (0 : Int) + st.2.2.1
      let savingsPercent :=
        if totalWithout > 0 then percentM st.2.2.2.2 totalWithout else "0"
      .ok (joinNL (["Context Status", "==============", ""] ++ activeLines ++ [""] ++
        cacheLines ++
        ["Total Context:        " ++ formatSizeM totalContext,
         "Without Compaction:   " ++ formatSizeM totalWithout,
         "Savings:              " ++ formatSizeM st.2.2.2.2 ++ " (" ++ savingsPercent ++ "%)"]))
  else
    .ok (joinNL (["Context Status", "==============", ""] ++ activeLines ++ [""] ++ cacheLines))

/-! ## The Summary Model and the Rust renderer (`src/parsers/rust.ts`) -/

/-- `FunctionSummary`: a function of the public surface. -/
structure FunctionSummary where
  name : String
  doc : Option String
  signature : String
  isUnsafe : Bool
  isAsync : Bool
  isPublic : Bool
  deriving DecidableEq, Repr

/-- `FieldSummary`: a struct field. -/
structure FieldSummary where
  name : String
  type : String
  doc : Option String
  isPublic : Bool
  deriving DecidableEq, Repr

/-- `StructSummary`. -/
structure StructSummary where
  name : String
  doc : Option String
  generics : String
  fields : List FieldSummary
  methods : List FunctionSummary
  derives : List String
  deriving DecidableEq, Repr

/-- `TraitSummary`. -/
structure TraitSummary where
  name : String
  doc : Option String
  generics : String
  bounds : String
  methods : List FunctionSummary
  deriving DecidableEq, Repr

/-- `EnumSummary`. -/
structure EnumSummary where
  name : String
  doc : Option String
  generics : String
  variants : List String
  derives : List String
  deriving DecidableEq, Repr

/-- `TypeAliasSummary`. -/
structure TypeAliasSummary where
  name : String
  doc : Option String
  definition : String
  deriving DecidableEq, Repr

/-- `ConstantSummary`. -/
structure ConstantSummary where
  name : String
  doc : Option String
  type : String
  isStatic : Bool
  deriving DecidableEq, Repr

/-- `FileSummary`: the canonical Summary Model. -/
structure FileSummary where
  purpose : Option String
  structs : List StructSummary
  traits : List TraitSummary
  enums : List EnumSummary
  functions : List FunctionSummary
  typeAliases : List TypeAliasSummary
  constants : List ConstantSummary
  reexports : List String
  deriving DecidableEq, Repr

/-- JS `array.join(sep)`. -/
def joinSep (sep : String) : List String → String
  | [] => ""
  | [x] => x
  | x :: xs => x ++ sep ++ joinSep sep xs

/-- `doc.split('\n')[0]`. -/
def firstLine (d : String) : String :=
  match splitLinesJS d with
  | [] => ""
  | h :: _ => h

/-- The `if (x.doc) lines.push('/// ' + x.doc.split('\n')[0])` pattern. -/
def docLine (d : Option String) : List String :=
  match optTruthy d with
  | some dd => ["/// " ++ firstLine dd]
  | none => []

/-- `formatSummary` from `src/parsers/rust.ts`: renders a Summary Model into
deterministic display text.  Pure: no I/O, no clock, no randomness. -/
def formatSummary (summary : FileSummary) : String :=
  let purposeBlock :=
    match optTruthy summary.purpose with
    | some p =>
      let purposeLines := (splitLinesJS p).filter (fun l => !(trimJS l = "" : Bool))
      ("// Purpose: " ++ (match purposeLines with | [] => "undefined" | h :: _ => h)) ::
        ((purposeLines.drop 1).map (fun l => "//          " ++ l) ++ [""])
    | none => []
  let reexportBlock :=
    if summary.reexports.length > 0 then summary.reexports ++ [""] else []
  let constantsBlock :=
    (summary.constants.flatMap (fun c =>
      docLine c.doc ++
      ["pub " ++ (if c.isStatic then "static" else "const") ++ " " ++ c.name ++ ": " ++
        c.type ++ ";"])) ++
    (if summary.constants.length > 0 then [""] else [])
  let aliasBlock :=
    (summary.typeAliases.flatMap (fun a => docLine a.doc ++ ["pub " ++ a.definition])) ++
    (if summary.typeAliases.length > 0 then [""] else [])
  let structBlock :=
    summary.structs.flatMap (fun st =>
      (if st.derives.length > 0 then ["#[derive(" ++ joinSep ", " st.derives ++ ")]"] else []) ++
      docLine st.doc ++
      ["pub struct " ++ st.name ++ st.generics ++ " \x7b ... \x7d"] ++
      (let pubFields := st.fields.filter (fun f => f.isPublic)
       if pubFields.length > 0 then
         "  // Public fields:" ::
           pubFields.map (fun f => "  pub " ++ f.name ++ ": " ++ f.type ++ ",")
       else []) ++
      (if st.methods.length > 0 then
        ("impl" ++ st.generics ++ " " ++ st.name ++ st.generics ++ " \x7b") ::
          (st.methods.map (fun m => "    " ++ m.signature ++ ";") ++ ["\x7d"])
       else []) ++
      [""])
  let enumBlock :=
    summary.enums.flatMap (fun e =>
      (if e.derives.length > 0 then ["#[derive(" ++ joinSep ", " e.derives ++ ")]"] else []) ++
      docLine e.doc ++
      ["pub enum " ++ e.name ++ e.generics ++ " \x7b"] ++
      e.variants.map (fun v => "    " ++ v ++ ",") ++
      ["\x7d", ""])
  let traitBlock :=
    summary.traits.flatMap (fun t =>
      docLine t.doc ++
      [("pub trait " ++ t.name ++ t.generics ++
          (if !(t.bounds = "" : Bool) then ": " ++ t.bounds else "")) ++ " \x7b"] ++
      t.methods.map (fun m => "    " ++ m.signature ++ ";") ++
      ["\x7d", ""])
  let fnBlock :=
    summary.functions.flatMap (fun f => docLine f.doc ++ [f.signature ++ ";"])
  trimJS (joinNL (purposeBlock ++ reexportBlock ++ constantsBlock ++ aliasBlock ++
    structBlock ++ enumBlock ++ traitBlock ++ fnBlock))

/-- `parseRust`: the tree-sitter parse plus the extraction walk are the
external concrete-syntax-tree backend (out of scope by design, deterministic,
I/O-free), abstracted as the `extract` function; the renderer is applied to
its Summary Model.  The `catch` branch of the source becomes the
`Except.error` case. -/
def parseRustModel (extract : String → Except String FileSummary) (source : String) :
    ParseOutcomeM :=
  match extract source with
  | .ok su => .success (formatSummary su)
  | .error e => .failure e

/-! ## Association-list lemmas -/

theorem alGet_none_iff {β : Type} (m : List (String × β)) (k : String) :
    alGet m k = none ↔ k ∉ m.map (fun kv => kv.1) := by
  induction m with
  | nil => simp [alGet]
  | cons kv t ih =>
    obtain ⟨k0, v⟩ := kv
    by_cases h : k0 = k
    · subst h
      simp [alGet]
    · simp [alGet, h, Ne.symm h, ih]

theorem alGet_isSome_iff {β : Type} (m : List (String × β)) (k : String) :
    (alGet m k).isSome = true ↔ k ∈ m.map (fun kv => kv.1) := by
  rw [Option.isSome_iff_ne_none, ne_eq, alGet_none_iff, not_not]

theorem alGet_mem {β : Type} {m : List (String × β)} {k : String} {v : β}
    (h : alGet m k = some v) : (k, v) ∈ m := by
  induction m with
  | nil => simp [alGet] at h
  | cons kv t ih =>
    obtain ⟨k', v'⟩ := kv
    by_cases hk : k' = k
    · subst hk
      simp [alGet] at h
      simp [h]
    · simp [alGet, hk] at h
      simp [ih h]

theorem alGet_map_update_self {β : Type} {m : List (String × β)} {k : String} (v : β)
    (h : (alGet m k).isSome = true) :
    alGet (m.map (fun kv => if kv.1 = k then (k, v) else kv)) k = some v := by
  induction m with
  | nil => simp [alGet] at h
  | cons kv t ih =>
    obtain ⟨k0, v0⟩ := kv
    simp only [List.map_cons]
    by_cases hk : k0 = k
    · rw [if_pos hk]
      simp [alGet]
    · rw [if_neg hk]
      have h1 : (alGet t k).isSome = true := by simpa [alGet, hk] using h
      simp [alGet, hk, ih h1]

theorem alGet_map_update_ne {β : Type} (m : List (String × β)) (k k' : String) (v : β)
    (h : k' ≠ k) :
    alGet (m.map (fun kv => if kv.1 = k then (k, v) else kv)) k' = alGet m k' := by
  induction m with
  | nil => simp [alGet]
  | cons kv t ih =>
    obtain ⟨k0, v0⟩ := kv
    simp only [List.map_cons]
    by_cases hk : k0 = k
    · rw [if_pos hk]
      have hk2 : k ≠ k' := Ne.symm h
      have hk3 : k0 ≠ k' := hk ▸ hk2
      simp [alGet, hk2, hk3, ih]
    · rw [if_neg hk]
      by_cases hk1 : k0 = k'
      · simp [alGet, hk1]
      · simp [alGet, hk1, ih]

theorem alGet_append_single_self {β : Type} {m : List (String × β)} {k : String} (v : β)
    (h : alGet m k = none) : alGet (m ++ [(k, v)]) k = some v := by
  induction m with
  | nil => simp [alGet]
  | cons kv t ih =>
    obtain ⟨k', v'⟩ := kv
    by_cases hk : k' = k
    · simp [alGet, hk] at h
    · simp [alGet, hk] at h ⊢
      exact ih h

theorem alGet_append_single_ne {β : Type} (m : List (String × β)) (k k' : String) (v : β)
    (h : k' ≠ k) : alGet (m ++ [(k, v)]) k' = alGet m k' := by
  induction m with
  | nil => simp [alGet, Ne.symm h]
  | cons kv t ih =>
    obtain ⟨k0, v0⟩ := kv
    by_cases hk : k0 = k'
    · simp [alGet, hk]
    · simp [alGet, hk, ih]

theorem alGet_set_self {β : Type} (m : List (String × β)) (k : String) (v : β) :
    alGet (alSet m k v) k = some v := by
  unfold alSet
  by_cases h : (alGet m k).isSome = true
  · simp [h, alGet_map_update_self v h]
  · simp at h
    simp [h, alGet_append_single_self v h]

theorem alGet_set_ne {β : Type} (m : List (String × β)) (k k' : String) (v : β)
    (h : k' ≠ k) : alGet (alSet m k v) k' = alGet m k' := by
  unfold alSet
  by_cases hs : (alGet m k).isSome = true
  · simp [hs, alGet_map_update_ne m k k' v h]
  · simp at hs
    simp [hs, alGet_append_single_ne m k k' v h]

theorem alGet_delete_self {β : Type} (m : List (String × β)) (k : String) :
    alGet (alDelete m k) k = none := by
  induction m with
  | nil => simp [alDelete, alGet]
  | cons kv t ih =>
    obtain ⟨k', v⟩ := kv
    by_cases hk : k' = k
    · simpa [alDelete, hk] using ih
    · simpa [alDelete, alGet, hk] using ih

theorem alGet_delete_ne {β : Type} (m : List (String × β)) (k k' : String)
    (h : k' ≠ k) : alGet (alDelete m k) k' = alGet m k' := by
  induction m with
  | nil => simp [alDelete, alGet]
  | cons kv t ih =>
    obtain ⟨k0, v⟩ := kv
    by_cases hk : k0 = k
    · subst hk
      simpa [alDelete, alGet, List.filter_cons, Ne.symm h] using ih
    · by_cases hk1 : k0 = k'
      · subst hk1
        simp [alDelete, alGet, List.filter_cons, hk]
      · simpa [alDelete, alGet, List.filter_cons, hk, hk1] using ih

theorem keys_alSet_isSome {β : Type} (m : List (String × β)) (k : String) (v : β)
    (h : (alGet m k).isSome = true) :
    (alSet m k v).map (fun kv => kv.1) = m.map (fun kv => kv.1) := by
  unfold alSet
  simp only [h, if_true, List.map_map]
  apply List.map_congr_left
  intro kv _
  by_cases hk : kv.1 = k <;> simp [hk]

theorem mem_alSet {β : Type} {m : List (String × β)} {k : String} {v : β} {kv : String × β}
    (h : kv ∈ alSet m k v) : kv.1 = k ∨ (kv ∈ m ∧ kv.1 ≠ k) := by
  unfold alSet at h
  by_cases hs : (alGet m k).isSome = true
  · rw [if_pos hs] at h
    obtain ⟨⟨k0, v0⟩, hmem, hupd⟩ := List.mem_map.mp h
    by_cases hk : k0 = k
    · left
      rw [← hupd]
      simp [hk]
    · right
      rw [← hupd]
      simp only [hk, if_false]
      refine ⟨hmem, ?_⟩
      simpa using hk
  · rw [if_neg hs] at h
    rcases List.mem_append.mp h with hm | he
    · right
      refine ⟨hm, ?_⟩
      have hs2 : alGet m k = none := by
        simpa [Option.not_isSome_iff_eq_none] using hs
      rw [alGet_none_iff] at hs2
      intro hkk
      exact hs2 (hkk ▸ List.mem_map_of_mem (fun kv => kv.1) hm)
    · left
      have : kv = (k, v) := by simpa using he
      simp [this]

theorem mem_alDelete {β : Type} {m : List (String × β)} {k : String} {kv : String × β}
    (h : kv ∈ alDelete m k) : kv ∈ m ∧ kv.1 ≠ k := by
  unfold alDelete at h
  have := List.mem_filter.mp h
  refine ⟨this.1, ?_⟩
  have hb := this.2
  simpa using hb

theorem keys_alDelete_sublist {β : Type} (m : List (String × β)) (k : String) :
    ((alDelete m k).map (fun kv => kv.1)).Sublist (m.map (fun kv => kv.1)) :=
  (List.filter_sublist m).map (fun kv => kv.1)

/-! ## Eviction-loop lemmas -/

theorem evictGo_of_le (a : Option String) (maxT : Nat) (order : List String)
    (m : List (String × CachedSummaryM)) (h : m.length ≤ maxT) :
    evictGo a maxT order m = some (order, m) := by
  cases order <;> simp [evictGo, h]

theorem evictGo_length_le (a : Option String) (maxT : Nat) :
    ∀ (order : List String) (m o2 : _) (m2 : List (String × CachedSummaryM)),
      evictGo a maxT order m = some (o2, m2) → m2.length ≤ maxT := by
  intro order
  induction order with
  | nil =>
    intro m o2 m2 h
    simp only [evictGo] at h
    by_cases hl : m.length ≤ maxT
    · rw [if_pos hl] at h
      simp only [Option.some.injEq, Prod.mk.injEq] at h
      rw [← h.2]
      exact hl
    · rw [if_neg hl] at h
      simp at h
  | cons o rest ih =>
    intro m o2 m2 h
    simp only [evictGo] at h
    by_cases hl : m.length ≤ maxT
    · rw [if_pos hl] at h
      simp only [Option.some.injEq, Prod.mk.injEq] at h
      rw [← h.2]
      exact hl
    · rw [if_neg hl] at h
      by_cases hc : o ≠ "" ∧ some o ≠ a
      · rw [if_pos hc] at h
        exact ih _ _ _ h
      · rw [if_neg hc] at h
        exact ih _ _ _ h

theorem evictGo_get_preserved (a : Option String) (maxT : Nat) :
    ∀ (order : List String) (m o2 : _) (m2 : List (String × CachedSummaryM))
      (k : String) (v : CachedSummaryM),
      evictGo a maxT order m = some (o2, m2) → alGet m2 k = some v → alGet m k = some v := by
  intro order
  induction order with
  | nil =>
    intro m o2 m2 k v h hg
    simp only [evictGo] at h
    by_cases hl : m.length ≤ maxT
    · rw [if_pos hl] at h
      simp only [Option.some.injEq, Prod.mk.injEq] at h
      rw [h.2]
      exact hg
    · rw [if_neg hl] at h
      simp at h
  | cons o rest ih =>
    intro m o2 m2 k v h hg
    simp only [evictGo] at h
    by_cases hl : m.length ≤ maxT
    · rw [if_pos hl] at h
      simp only [Option.some.injEq, Prod.mk.injEq] at h
      rw [h.2]
      exact hg
    · rw [if_neg hl] at h
      by_cases hc : o ≠ "" ∧ some o ≠ a
      · rw [if_pos hc] at h
        have := ih _ _ _ k v h hg
        by_cases hk : k = o
        · rw [hk, alGet_delete_self] at this
          simp at this
        · rw [alGet_delete_ne m o k hk] at this
          exact this
      · rw [if_neg hc] at h
        exact ih _ _ _ k v h hg

theorem evictGo_deletes_only_nonactive (a : Option String) (maxT : Nat) :
    ∀ (order : List String) (m o2 : _) (m2 : List (String × CachedSummaryM)) (k : String),
      evictGo a maxT order m = some (o2, m2) →
      (alGet m k).isSome = true → alGet m2 k = none → some k ≠ a := by
  intro order
  induction order with
  | nil =>
    intro m o2 m2 k h hs hn
    simp only [evictGo] at h
    by_cases hl : m.length ≤ maxT
    · rw [if_pos hl] at h
      simp only [Option.some.injEq, Prod.mk.injEq] at h
      rw [h.2] at hs
      rw [hn] at hs
      simp at hs
    · rw [if_neg hl] at h
      simp at h
  | cons o rest ih =>
    intro m o2 m2 k h hs hn
    simp only [evictGo] at h
    by_cases hl : m.length ≤ maxT
    · rw [if_pos hl] at h
      simp only [Option.some.injEq, Prod.mk.injEq] at h
      rw [h.2] at hs
      rw [hn] at hs
      simp at hs
    · rw [if_neg hl] at h
      by_cases hc : o ≠ "" ∧ some o ≠ a
      · rw [if_pos hc] at h
        by_cases hk : k = o
        · rw [hk]
          exact hc.2
        · have hs2 : (alGet (alDelete m o) k).isSome = true := by
            rw [alGet_delete_ne m o k hk]
            exact hs
          exact ih _ _ _ k h hs2 hn
      · rw [if_neg hc] at h
        exact ih _ _ _ k h hs hn

theorem length_le_one_of_nodup_all_eq {α : Type} {l : List α} {c : α}
    (hnd : l.Nodup) (hall : ∀ x ∈ l, x = c) : l.length ≤ 1 := by
  match l with
  | [] => simp
  | [x] => simp
  | x :: y :: t =>
    exfalso
    have hx := hall x (by simp)
    have hy := hall y (by simp)
    rw [List.nodup_cons] at hnd
    apply hnd.1
    rw [show x = y by rw [hx, hy]]
    exact List.mem_cons_self y t

theorem keys_alSet_nodup {β : Type} (m : List (String × β)) (k : String) (v : β)
    (hnd : (m.map (fun kv => kv.1)).Nodup) : ((alSet m k v).map (fun kv => kv.1)).Nodup := by
  by_cases hs : (alGet m k).isSome = true
  · rw [keys_alSet_isSome m k v hs]
    exact hnd
  · unfold alSet
    rw [if_neg hs]
    rw [List.map_append]
    simp only [Bool.not_eq_true] at hs
    have hnotin : k ∉ m.map (fun kv => kv.1) := by
      rw [← alGet_none_iff]
      simpa [Option.not_isSome_iff_eq_none] using hs
    simp [List.nodup_append, hnd, hnotin]

theorem length_alSet_isSome {β : Type} (m : List (String × β)) (k : String) (v : β)
    (hs : (alGet m k).isSome = true) : (alSet m k v).length = m.length := by
  unfold alSet
  rw [if_pos hs]
  exact List.length_map m _

theorem mem_updateAccessOrder_self (order : List String) (p : String) :
    p ∈ updateAccessOrder order p := by
  simp [updateAccessOrder]

theorem mem_updateAccessOrder_of (order : List String) {k p : String}
    (hk : k ∈ order) (hne : k ≠ p) : k ∈ updateAccessOrder order p := by
  simp [updateAccessOrder, List.mem_filter, hk, hne]

theorem evictGo_isSome (a : Option String) (maxT : Nat) (hmax : 1 ≤ maxT) :
    ∀ (order : List String) (m : List (String × CachedSummaryM)),
      (m.map (fun kv => kv.1)).Nodup →
      (∀ kv ∈ m, some kv.1 ≠ a → kv.1 ∈ order ∧ kv.1 ≠ "") →
      (evictGo a maxT order m).isSome = true := by
  intro order
  induction order with
  | nil =>
    intro m hnd hcov
    have hle : m.length ≤ maxT := by
      have hall : ∀ x ∈ m.map (fun kv => kv.1), some x = a := by
        intro x hx
        obtain ⟨kv, hkv, rfl⟩ := List.mem_map.mp hx
        by_contra hne
        exact absurd (hcov kv hkv hne).1 (List.not_mem_nil _)
      cases hm : m with
      | nil => simp
      | cons kv t =>
        subst hm
        have h1 : some kv.1 = a := hall kv.1 (by simp)
        have hall2 : ∀ x ∈ (kv :: t).map (fun kv => kv.1), x = kv.1 := by
          intro x hx
          have h2 := hall x hx
          rw [← h1] at h2
          exact Option.some.inj h2
        have h3 := length_le_one_of_nodup_all_eq hnd hall2
        have hlen : (kv :: t).length ≤ 1 := by simpa using h3
        omega
    simp [evictGo, hle]
  | cons o rest ih =>
    intro m hnd hcov
    simp only [evictGo]
    by_cases hl : m.length ≤ maxT
    · simp [hl]
    · rw [if_neg hl]
      by_cases hc : o ≠ "" ∧ some o ≠ a
      · rw [if_pos hc]
        apply ih
        · exact (keys_alDelete_sublist m o).nodup hnd
        · intro kv hkv hne
          obtain ⟨hmem, hko⟩ := mem_alDelete hkv
          obtain ⟨hin, hne2⟩ := hcov kv hmem hne
          rcases List.mem_cons.mp hin with heq | hin2
          · exact absurd heq hko
          · exact ⟨hin2, hne2⟩
      · rw [if_neg hc]
        apply ih
        · exact hnd
        · intro kv hkv hne
          obtain ⟨hin, hne2⟩ := hcov kv hkv hne
          rcases List.mem_cons.mp hin with heq | hin2
          · exfalso
            rw [not_and_or] at hc
            rcases hc with hc1 | hc2
            · rw [not_not] at hc1
              exact hne2 (heq.trans hc1)
            · rw [not_not] at hc2
              exact hne (heq ▸ hc2)
          · exact ⟨hin2, hne2⟩

/-! ## `setSummary`-level lemmas -/

/-- The data-model invariant of §3 of the design: summary keys are unique,
and every key that is not the active path occurs in the recency list (and is
a nonempty string, as produced by any real path normalization). -/
def GoodState (s : ContextState) : Prop :=
  (s.summaries.map (fun kv => kv.1)).Nodup ∧
  ∀ kv ∈ s.summaries, some kv.1 ≠ s.activeFile → kv.1 ∈ s.accessOrder ∧ kv.1 ≠ ""

instance (s : ContextState) : Decidable (GoodState s) := by
  unfold GoodState
  infer_instance

theorem setSummaryModel_some_fields {env : Env} {s : ContextState} {p su co : String}
    {s1 : ContextState} (h : setSummaryModel env s p su co = some s1) :
    s1.activeFile = s.activeFile ∧ s1.maxTrackedFiles = s.maxTrackedFiles ∧
    s1.summaries.length ≤ s.maxTrackedFiles ∧
    (∀ k v, alGet s1.summaries k = some v → alGet (setSummaryInsert env s p su co) k = some v) ∧
    (∀ k, (alGet (setSummaryInsert env s p su co) k).isSome = true →
      alGet s1.summaries k = none → some k ≠ s.activeFile) := by
  simp only [setSummaryModel] at h
  cases hev : evictGo s.activeFile s.maxTrackedFiles
      (updateAccessOrder s.accessOrder (env.normalize p)) (setSummaryInsert env s p su co) with
  | none =>
    rw [hev] at h
    simp at h
  | some om =>
    obtain ⟨o2, m2⟩ := om
    rw [hev] at h
    simp only [Option.map_some', Option.some.injEq] at h
    constructor
    · rw [← h]
    constructor
    · rw [← h]
    constructor
    · rw [← h]
      exact evictGo_length_le _ _ _ _ _ _ hev
    constructor
    · intro k v hg
      rw [← h] at hg
      exact evictGo_get_preserved _ _ _ _ _ _ k v hev hg
    · intro k hsome hnone
      rw [← h] at hnone
      exact evictGo_deletes_only_nonactive _ _ _ _ _ _ k hev hsome hnone

theorem setSummaryModel_isSome (env : Env) (s : ContextState) (p su co : String)
    (hG : GoodState s) (hnp : env.normalize p ≠ "") (hmax : 1 ≤ s.maxTrackedFiles) :
    (setSummaryModel env s p su co).isSome = true := by
  have hnodup : ((setSummaryInsert env s p su co).map (fun kv => kv.1)).Nodup :=
    keys_alSet_nodup _ _ _ hG.1
  have hcov : ∀ kv ∈ setSummaryInsert env s p su co, some kv.1 ≠ s.activeFile →
      kv.1 ∈ updateAccessOrder s.accessOrder (env.normalize p) ∧ kv.1 ≠ "" := by
    intro kv hkv hne
    rcases mem_alSet hkv with hk | ⟨hm, hk⟩
    · rw [hk]
      exact ⟨mem_updateAccessOrder_self _ _, hnp⟩
    · obtain ⟨hin, hne2⟩ := hG.2 kv hm hne
      exact ⟨mem_updateAccessOrder_of _ hin hk, hne2⟩
  have h := evictGo_isSome s.activeFile s.maxTrackedFiles hmax
    (updateAccessOrder s.accessOrder (env.normalize p)) (setSummaryInsert env s p su co)
    hnodup hcov
  simp only [setSummaryModel]
  cases hev : evictGo s.activeFile s.maxTrackedFiles
      (updateAccessOrder s.accessOrder (env.normalize p)) (setSummaryInsert env s p su co) with
  | none =>
    rw [hev] at h
    simp at h
  | some om => simp

/-! ## JS string lemmas (for the `editFile` contract) -/

theorem strIncludes_nil_pat_cons (p : Char) (ps : List Char) :
    strIncludes [] (p :: ps) = false := by
  rw [strIncludes]
  simp [strStartsWith]

theorem strIncludes_cons (c : Char) (t pat : List Char) :
    strIncludes (c :: t) pat = (strStartsWith pat (c :: t) || strIncludes t pat) := by
  rw [strIncludes]
  by_cases h : strStartsWith pat (c :: t) = true
  · simp [h]
  · simp [h]

theorem strStartsWith_decomp : ∀ {pat s : List Char}, strStartsWith pat s = true →
    ∃ r, s = pat ++ r ∧ r = s.drop pat.length := by
  intro pat
  induction pat with
  | nil =>
    intro s _
    exact ⟨s, by simp, by simp⟩
  | cons a as ih =>
    intro s h
    cases s with
    | nil => simp [strStartsWith] at h
    | cons b bs =>
      simp only [strStartsWith, Bool.and_eq_true, decide_eq_true_eq] at h
      obtain ⟨hab, h2⟩ := h
      obtain ⟨r, hr1, hr2⟩ := ih h2
      refine ⟨r, ?_, ?_⟩
      · simp [hab, hr1]
      · simpa using hr2

theorem splitGoF_length_pos (p : Char) (ps : List Char) :
    ∀ (f : Nat) (acc s : List Char), 1 ≤ (splitGoF p ps f acc s).length := by
  intro f
  induction f with
  | zero =>
    intro acc s
    cases s <;> simp [splitGoF]
  | succ f ih =>
    intro acc s
    cases s with
    | nil => simp [splitGoF]
    | cons c t =>
      simp only [splitGoF]
      by_cases h : strStartsWith (p :: ps) (c :: t) = true
      · rw [if_pos h]
        simp
      · rw [if_neg h]
        exact ih _ _

theorem splitGoF_not_includes (p : Char) (ps : List Char) :
    ∀ (f : Nat) (s acc : List Char), s.length ≤ f → strIncludes s (p :: ps) = false →
    splitGoF p ps f acc s = [acc.reverse ++ s] := by
  intro f
  induction f with
  | zero =>
    intro s acc hf _
    cases s with
    | nil => simp [splitGoF]
    | cons c t => simp at hf
  | succ f ih =>
    intro s acc hf hni
    cases s with
    | nil => simp [splitGoF]
    | cons c t =>
      rw [strIncludes_cons] at hni
      simp only [Bool.or_eq_false_iff] at hni
      simp only [splitGoF]
      rw [if_neg (by simp [hni.1])]
      rw [ih t (c :: acc) (by simpa using hf) hni.2]
      simp

theorem splitGoF_includes_len (p : Char) (ps : List Char) :
    ∀ (f : Nat) (s acc : List Char), s.length ≤ f → strIncludes s (p :: ps) = true →
    2 ≤ (splitGoF p ps f acc s).length := by
  intro f
  induction f with
  | zero =>
    intro s acc hf hi
    cases s with
    | nil => rw [strIncludes_nil_pat_cons] at hi; simp at hi
    | cons c t => simp at hf
  | succ f ih =>
    intro s acc hf hi
    cases s with
    | nil => rw [strIncludes_nil_pat_cons] at hi; simp at hi
    | cons c t =>
      simp only [splitGoF]
      by_cases h : strStartsWith (p :: ps) (c :: t) = true
      · rw [if_pos h]
        have := splitGoF_length_pos p ps f [] (t.drop ps.length)
        simp only [List.length_cons]
        omega
      · rw [if_neg h]
        rw [strIncludes_cons] at hi
        simp only [h, Bool.false_or] at hi
        exact ih t (c :: acc) (by simpa using hf) hi

theorem replGo_decomp (p : Char) (ps newStr : List Char) :
    ∀ s : List Char, strIncludes s (p :: ps) = true →
    ∃ pre post, s = pre ++ (p :: ps) ++ post ∧
      ∀ seen : List Char, replGo p ps newStr seen s =
        pre ++ (getSubstitution (p :: ps) (seen.reverse ++ pre) post newStr ++ post) := by
  intro s
  induction s with
  | nil =>
    intro h
    rw [strIncludes_nil_pat_cons] at h
    simp at h
  | cons c t ih =>
    intro h
    by_cases hsw : strStartsWith (p :: ps) (c :: t) = true
    · obtain ⟨rest, hrest, hdrop⟩ := strStartsWith_decomp hsw
      refine ⟨[], rest, by simpa using hrest, ?_⟩
      intro seen
      simp only [replGo]
      rw [if_pos hsw]
      have hr : t.drop ps.length = rest := by
        simp only [List.length_cons] at hdrop
        rw [hdrop]
        simp
      rw [hr]
      simp
    · have hti : strIncludes t (p :: ps) = true := by
        rw [strIncludes_cons] at h
        simpa [hsw] using h
      obtain ⟨pre, post, h1, h2⟩ := ih hti
      refine ⟨c :: pre, post, by simp [h1], ?_⟩
      intro seen
      simp only [replGo]
      rw [if_neg hsw]
      rw [h2 (c :: seen)]
      simp

theorem splitJS_not_includes {s pat : List Char} (hne : pat ≠ [])
    (h : strIncludes s pat = false) : splitJS s pat = [s] := by
  match pat, hne with
  | p :: ps, _ =>
    simp only [splitJS]
    rw [splitGoF_not_includes p ps s.length s [] (le_refl _) h]
    simp

theorem occurrencesJS_zero_of_not_includes {s pat : List Char} (hne : pat ≠ [])
    (h : strIncludes s pat = false) : occurrencesJS s pat = 0 := by
  rw [occurrencesJS, splitJS_not_includes hne h]
  simp

theorem occurrencesJS_pos_of_includes {s pat : List Char} (hne : pat ≠ [])
    (h : strIncludes s pat = true) : 1 ≤ occurrencesJS s pat := by
  match pat, hne with
  | p :: ps, _ =>
    rw [occurrencesJS]
    simp only [splitJS]
    have := splitGoF_includes_len p ps s.length s [] (le_refl _) h
    omega

theorem includes_of_occurrencesJS_pos {s pat : List Char} (hne : pat ≠ [])
    (h : 1 ≤ occurrencesJS s pat) : strIncludes s pat = true := by
  by_contra hni
  simp only [Bool.not_eq_true] at hni
  rw [occurrencesJS_zero_of_not_includes hne hni] at h
  omega

theorem not_includes_of_occurrencesJS_zero {s pat : List Char} (hne : pat ≠ [])
    (h : occurrencesJS s pat = 0) : strIncludes s pat = false := by
  by_contra hi
  simp only [Bool.not_eq_false] at hi
  have := occurrencesJS_pos_of_includes hne hi
  omega

theorem replaceFirstJS_decomp {s pat : List Char} (newStr : List Char) (hne : pat ≠ [])
    (h : strIncludes s pat = true) :
    ∃ pre post, s = pre ++ pat ++ post ∧
      replaceFirstJS s pat newStr = pre ++ (getSubstitution pat pre post newStr ++ post) := by
  match pat, hne with
  | p :: ps, _ =>
    simp only [replaceFirstJS]
    obtain ⟨pre, post, h1, h2⟩ := replGo_decomp p ps newStr s h
    refine ⟨pre, post, h1, ?_⟩
    have h0 := h2 []
    simpa using h0

theorem getSubstitution_no_dollar (matched pre post : List Char) :
    ∀ tpl : List Char, '$' ∉ tpl → getSubstitution matched pre post tpl = tpl := by
  intro tpl
  induction tpl with
  | nil => intro _; rfl
  | cons c t ih =>
    intro hnd
    have hc : ¬ (c = '$') := by
      intro hc0
      exact hnd (by simp [hc0])
    have ht : '$' ∉ t := fun hm => hnd (List.mem_cons_of_mem c hm)
    rw [getSubstitution.eq_def]
    dsimp only
    rw [if_neg hc, ih ht]

/-- ECMAScript substitution sanity check: `"ab".replace("a", "$&$&") = "aab"`. -/
theorem replace_substitution_example :
    replaceFirstJS "ab".data "a".data "$&$&".data = "aab".data := by decide

/-! ## Concrete instantiations of the external collaborators

Used to evaluate the model at specific inputs: paths in the test inputs are
already normalized absolute paths, so the path functions are identities; the
content hash is instantiated with the identity (which is injective); the
extension function implements Node's `path.extname` on such paths. -/

/-- Node `path.extname` for concrete inputs: the suffix of the basename from
its last dot, empty for dotfiles and extensionless names. -/
def extnameModel (p : String) : String :=
  let base := (p.data.reverse.takeWhile (fun c => !(c = '/' : Bool))).reverse
  let rev := base.reverse
  let pre := rev.takeWhile (fun c => !(c = '.' : Bool))
  if pre.length = rev.length then ""
  else if pre.length = base.length - 1 then ""
  else String.mk ('.' :: pre.reverse)

/-- A concrete environment with the given parser. -/
def mkEnvW (parse : String → String → Option ParseOutcomeM) : Env :=
  { normalize := fun p => p, resolve := fun p => p, relOf := fun p => p,
    extname := extnameModel, hash := fun c => c, parse := parse, now := 0 }

/-- The concrete environment with a parser that always fails to match. -/
def envW : Env := mkEnvW (fun _ _ => none)

/-- Count of cache entries whose path is not the active path. -/
def nonActiveCount (m : List (String × CachedSummaryM)) (active : Option String) : Nat :=
  (m.filter (fun kv => !(some kv.1 = active : Bool))).length

/-! ## Claim C1 -/

/-- C1: for every `ContextState` and every completed `setSummary` call, the
eviction loop run at its end deletes only non-active paths (any key present
after the `summaries.set` step and absent afterwards is not the active path),
the active pointer is untouched, and after the loop settles the number of
entries of `summaries` whose path is not the active path is at most
`maxTrackedFiles`. -/
theorem setSummary_eviction_safe (env : Env) (s : ContextState) (p su co : String)
    (s1 : ContextState) (h : setSummaryModel env s p su co = some s1) :
    s1.activeFile = s.activeFile ∧
    (∀ k, (alGet (setSummaryInsert env s p su co) k).isSome = true →
      alGet s1.summaries k = none → some k ≠ s.activeFile) ∧
    nonActiveCount s1.summaries s.activeFile ≤ s.maxTrackedFiles := by
  obtain ⟨h1, _, h3, _, h5⟩ := setSummaryModel_some_fields h
  refine ⟨h1, h5, ?_⟩
  calc nonActiveCount s1.summaries s.activeFile
      ≤ s1.summaries.length := List.length_filter_le _ _
    _ ≤ s.maxTrackedFiles := h3

/-- The cache entry produced by the witness call below. -/
def csW1 : CachedSummaryM :=
  { summary := "S", contentHash := "C", fullSize := 1, summarySize := 1,
    lastAccessed := 0, relativePath := "/a.rs" }

/-- The state after `setSummary("/a.rs", "S", "C")` on a fresh state. -/
def sW1 : ContextState :=
  { activeFile := none, summaries := [("/a.rs", csW1)], accessOrder := ["/a.rs"],
    maxTrackedFiles := 50, maxDocLines := 5, projectRoot := "/" }

theorem setSummary_eviction_safe_witness :
    setSummaryModel envW (initState 50) "/a.rs" "S" "C" = some sW1 ∧
    nonActiveCount sW1.summaries none ≤ 50 :=
  ⟨by decide, (setSummary_eviction_safe envW (initState 50) "/a.rs" "S" "C" sW1 (by decide)).2.2⟩

/-! ## Claim C10 -/

/-- C10 counterexample: a reachable state on which `setSummary` diverges.
With `maxTrackedFiles = 0`, activate `/a.rs` and call
`setSummary("/a.rs", ...)`: the eviction loop pops `/a.rs` from the recency
list but must skip it (it is active), the list empties with
`summaries.size = 1 > 0`, and the JS `while` loop then spins forever — the
model returns `none`. -/
theorem evict_divergence_counterexample :
    setSummaryModel envW ((setActiveFileModel envW (initState 0) "/a.rs").2) "/a.rs" "S" "C" =
      none := by decide

/-- C10 (amended): `setSummary` terminates on every state satisfying the
data-model invariant (unique summary keys; every non-active key in the
recency list, keys nonempty) provided `maxTrackedFiles ≥ 1`; with
`maxTrackedFiles = 0` the eviction loop diverges when the active file itself
holds the only summary entry (see the counterexample). -/
theorem setSummary_terminates (env : Env) (s : ContextState) (p su co : String)
    (hG : GoodState s) (hnp : env.normalize p ≠ "") (hmax : 1 ≤ s.maxTrackedFiles) :
    (setSummaryModel env s p su co).isSome = true :=
  setSummaryModel_isSome env s p su co hG hnp hmax

theorem setSummary_terminates_witness :
    GoodState (initState 1) ∧ (setSummaryModel envW (initState 1) "/a.rs" "S" "C").isSome = true :=
  ⟨by decide, setSummary_terminates envW (initState 1) "/a.rs" "S" "C" (by decide) (by decide)
    (by decide)⟩

/-! ## Claim C7 -/

/-- A cached entry for `/b.rs`. -/
def csW7 : CachedSummaryM :=
  { summary := "s", contentHash := "h", fullSize := 10, summarySize := 2,
    lastAccessed := 0, relativePath := "b.rs" }

/-- A state with active file `/a.rs` and one cached summary. -/
def sW7 : ContextState :=
  { activeFile := some "/a.rs", summaries := [("/b.rs", csW7)],
    accessOrder := ["/b.rs", "/a.rs"], maxTrackedFiles := 50, maxDocLines := 5,
    projectRoot := "/" }

/-- C7: `fileStatus` *fails* (uncaught exception) when the active file cannot
be read and at least one cached summary exists: the first read of the active
file is guarded by try/catch (yielding the "(file not found)" line), but the
totals block re-reads the same file unguarded and the exception escapes.  The
code therefore contradicts the spec's "best-effort; report not found"
contract whenever the cache is nonempty. -/
theorem status_missing_active_crashes :
    sW7.activeFile = some "/a.rs" ∧ diskRead [] "/a.rs" = none ∧
    sW7.summaries.length = 1 ∧
    fileStatusModel envW [] sW7 = Except.error () :=
  ⟨rfl, rfl, rfl, rfl⟩

/-! ## Claim C8 -/

/-- C8 counterexample: the emitted header line is not
`=== <relativePath> [FULL] ===`; it carries a leading `// ` comment marker. -/
theorem header_comment_marker_counterexample :
    formatFileHeaderM "a.rs" false = "// === a.rs [FULL] ===" ∧
    formatFileHeaderM "a.rs" false ≠ "=== a.rs [FULL] ===" := by decide

theorem strAppendAssoc (a b c : String) : a ++ b ++ c = a ++ (b ++ c) := by
  cases a with
  | mk l1 =>
    cases b with
    | mk l2 =>
      cases c with
      | mk l3 => exact congrArg String.mk (List.append_assoc l1 l2 l3)

/-- C8 (amended): for every relative path and both tag values,
`formatFileHeader` emits exactly the single line
`// === <relativePath> [FULL] ===` (full content) respectively
`// === <relativePath> [SUMMARY] ===` (summaries). -/
theorem header_format (rp : String) :
    formatFileHeaderM rp false = "// === " ++ rp ++ " [FULL] ===" ∧
    formatFileHeaderM rp true = "// === " ++ rp ++ " [SUMMARY] ===" := by
  constructor
  · show "// === " ++ rp ++ " [" ++ "FULL" ++ "] ===" = "// === " ++ rp ++ " [FULL] ==="
    rw [strAppendAssoc, strAppendAssoc]
    exact congrArg (fun z => "// === " ++ rp ++ z) (by decide)
  · show "// === " ++ rp ++ " [" ++ "SUMMARY" ++ "] ===" = "// === " ++ rp ++ " [SUMMARY] ==="
    rw [strAppendAssoc, strAppendAssoc]
    exact congrArg (fun z => "// === " ++ rp ++ z) (by decide)

/-! ## Claim C9 -/

/-- C9: the renderer is a pure deterministic function of the Summary Model —
identical Summary Models render to byte-identical text, and the
extract-then-render pipeline of `parseRust` is a deterministic function of
the source text (the tree-sitter backend being a function of the source). -/
theorem render_deterministic (m1 m2 : FileSummary)
    (extract : String → Except String FileSummary) (t1 t2 : String)
    (hm : m1 = m2) (ht : t1 = t2) :
    formatSummary m1 = formatSummary m2 ∧
    parseRustModel extract t1 = parseRustModel extract t2 :=
  ⟨congrArg formatSummary hm, congrArg (parseRustModel extract) ht⟩

/-- A nontrivial Summary Model used to instantiate the determinism theorem. -/
def exampleSummary : FileSummary :=
  { purpose := some "Point utilities.\nHelpers for points."
    structs := [{ name := "Point", doc := some "A 2D point.", generics := ""
                  fields := [{ name := "x", type := "f64", doc := none, isPublic := true },
                             { name := "y", type := "f64", doc := none, isPublic := true }]
                  methods := [{ name := "new", doc := some "Make a point."
                                signature := "pub fn new(x: f64, y: f64) -> Point"
                                isUnsafe := false, isAsync := false, isPublic := true }]
                  derives := ["Debug", "Clone"] }]
    traits := [{ name := "Shape", doc := none, generics := "", bounds := "Clone"
                 methods := [{ name := "area", doc := none
                               signature := "fn area(&self) -> f64"
                               isUnsafe := false, isAsync := false, isPublic := false }] }]
    enums := [{ name := "Kind", doc := none, generics := "", variants := ["A", "B(u8)"]
                derives := [] }]
    functions := [{ name := "origin", doc := some "The origin."
                    signature := "pub fn origin() -> Point"
                    isUnsafe := false, isAsync := false, isPublic := true }]
    typeAliases := [{ name := "Pair", doc := none, definition := "type Pair = (f64, f64);" }]
    constants := [{ name := "DIM", doc := none, type := "usize", isStatic := false }]
    reexports := ["pub use crate::geom::*;"] }

theorem render_deterministic_witness :
    exampleSummary = exampleSummary ∧
    formatSummary exampleSummary = formatSummary exampleSummary ∧
    parseRustModel (fun _ => .ok exampleSummary) "fn main()" =
      parseRustModel (fun _ => .ok exampleSummary) "fn main()" :=
  ⟨rfl,
   (render_deterministic exampleSummary exampleSummary (fun _ => .ok exampleSummary)
      "fn main()" "fn main()" rfl rfl).1,
   (render_deterministic exampleSummary exampleSummary (fun _ => .ok exampleSummary)
      "fn main()" "fn main()" rfl rfl).2⟩

/-! ## Claim C3 -/

/-- C3: `peekFile` never mutates the active-file pointer — whatever branch it
takes (unreadable path, unsupported extension, active file, fresh cached
summary, re-extraction with caching, parse failure), the active file of the
resulting state equals the active file before the call. -/
theorem peek_preserves_active (env : Env) (disk : Disk) (s : ContextState) (p : String)
    (res : (Except String String) × ContextState × Disk)
    (h : peekFileModel env disk s p = some res) : res.2.1.activeFile = s.activeFile := by
  simp only [peekFileModel] at h
  cases hd : diskRead disk (env.resolve p) with
  | none =>
    rw [hd] at h
    simp only [Option.some.injEq] at h
    rw [← h]
  | some content =>
    rw [hd] at h
    dsimp only at h
    by_cases hsup : isSupportedB env (env.resolve p) = true
    · rw [if_pos hsup] at h
      by_cases hact : s.activeFile = some (env.normalize (env.resolve p))
      · rw [if_pos hact] at h
        simp only [Option.some.injEq] at h
        rw [← h]
      · rw [if_neg hact] at h
        rcases hget : alGet s.summaries (env.normalize (env.resolve p)) with _ | cached
        · rw [hget] at h
          rcases hpar : env.parse (env.resolve p) content with _ | out
          · rw [hpar] at h
            cases hstale : isStaleModel env disk s (env.resolve p) <;>
              · rw [hstale] at h
                simp only [Option.some.injEq] at h
                rw [← h]
          · rw [hpar] at h
            cases out with
            | success f =>
              cases hstale : isStaleModel env disk s (env.resolve p) <;>
                · rw [hstale] at h
                  dsimp only at h
                  cases hss : setSummaryModel env s (env.resolve p) f content with
                  | none =>
                    rw [hss] at h
                    simp at h
                  | some s1 =>
                    rw [hss] at h
                    simp only [Option.map_some', Option.some.injEq] at h
                    rw [← h]
                    exact (setSummaryModel_some_fields hss).1
            | failure e =>
              cases hstale : isStaleModel env disk s (env.resolve p) <;>
                · rw [hstale] at h
                  simp only [Option.some.injEq] at h
                  rw [← h]
        · rw [hget] at h
          cases hstale : isStaleModel env disk s (env.resolve p) with
          | false =>
            rw [hstale] at h
            simp only [Option.some.injEq] at h
            rw [← h]
          | true =>
            rw [hstale] at h
            rcases hpar : env.parse (env.resolve p) content with _ | out
            · rw [hpar] at h
              simp only [Option.some.injEq] at h
              rw [← h]
            · rw [hpar] at h
              cases out with
              | success f =>
                cases hss : setSummaryModel env s (env.resolve p) f content with
                | none => simp [hss] at h
                | some s1 =>
                  simp only [hss, Option.map_some', Option.some.injEq] at h
                  rw [← h]
                  exact (setSummaryModel_some_fields hss).1
              | failure e =>
                simp only [Option.some.injEq] at h
                rw [← h]
    · rw [if_neg hsup] at h
      simp only [Option.some.injEq] at h
      rw [← h]

/-- A state with `/a.rs` active and nothing cached. -/
def sW3 : ContextState :=
  { activeFile := some "/a.rs", summaries := [], accessOrder := ["/a.rs"],
    maxTrackedFiles := 50, maxDocLines := 5, projectRoot := "/" }

/-- The result of peeking at the unsupported file `/b.txt` from `sW3`. -/
def peekResW : (Except String String) × ContextState × Disk :=
  (.ok "// === /b.txt [FULL] ===\n// (Unsupported file type - returning full contents)\n\nx",
   sW3, [("/b.txt", "x")])

theorem peek_preserves_active_witness :
    peekFileModel envW [("/b.txt", "x")] sW3 "/b.txt" = some peekResW ∧
    peekResW.2.1.activeFile = sW3.activeFile :=
  ⟨by rfl, peek_preserves_active envW [("/b.txt", "x")] sW3 "/b.txt" peekResW (by rfl)⟩

/-! ## Claim C4 -/

/-- C4: staleness round-trip.  If a path is tracked after a completed
`setSummary` with content `C` (its stored hash is then the hash of `C`) and
the on-disk bytes change to `C2 ≠ C`, then `isStale` is true; a subsequent
`setSummary` for the same path with content `C2` terminates (the key already
exists, so the map does not grow past the bound established by the first
call) and makes `isStale` false again while the disk still holds `C2`.  The
sha256 hash, an external primitive, is assumed collision-free on the two
contents (injectivity of `env.hash`). -/
theorem staleness_roundtrip (env : Env) (s : ContextState) (p su su2 C C2 : String)
    (s1 : ContextState) (disk2 : Disk)
    (hInj : Function.Injective env.hash)
    (h1 : setSummaryModel env s p su C = some s1)
    (h2 : (alGet s1.summaries (env.normalize p)).isSome = true)
    (hne : C2 ≠ C)
    (hd : diskRead disk2 p = some C2) :
    isStaleModel env disk2 s1 p = true ∧
    ∃ s2, setSummaryModel env s1 p su2 C2 = some s2 ∧
      isStaleModel env disk2 s2 p = false := by
  obtain ⟨v, hv⟩ := Option.isSome_iff_exists.mp h2
  obtain ⟨hact, hmaxeq, hlen, hpres, _⟩ := setSummaryModel_some_fields h1
  have hvi : alGet (setSummaryInsert env s p su C) (env.normalize p) = some v :=
    hpres (env.normalize p) v hv
  rw [setSummaryInsert, alGet_set_self] at hvi
  have hv2 : v = mkCached env p su C := (Option.some.inj hvi).symm
  constructor
  · simp only [isStaleModel, hv, hd, hv2, mkCached]
    simp only [Bool.not_eq_true', decide_eq_false_iff_not]
    intro hcon
    exact hne (hInj hcon)
  · have hle : (alSet s1.summaries (env.normalize p) (mkCached env p su2 C2)).length ≤
        s1.maxTrackedFiles := by
      rw [length_alSet_isSome _ _ _ h2, hmaxeq]
      exact hlen
    refine ⟨{ s1 with
        accessOrder := updateAccessOrder s1.accessOrder (env.normalize p)
        summaries := alSet s1.summaries (env.normalize p) (mkCached env p su2 C2) }, ?_, ?_⟩
    · simp only [setSummaryModel, setSummaryInsert]
      rw [evictGo_of_le _ _ _ _ hle]
      rfl
    · simp only [isStaleModel, alGet_set_self, hd, mkCached]
      simp

theorem staleness_roundtrip_witness :
    Function.Injective envW.hash ∧
    setSummaryModel envW (initState 50) "/a.rs" "S" "C" = some sW1 ∧
    (isStaleModel envW [("/a.rs", "D")] sW1 "/a.rs" = true ∧
     ∃ s2, setSummaryModel envW sW1 "/a.rs" "S2" "D" = some s2 ∧
       isStaleModel envW [("/a.rs", "D")] s2 "/a.rs" = false) :=
  ⟨fun _ _ hcon => hcon, by decide,
   staleness_roundtrip envW (initState 50) "/a.rs" "S" "S2" "C" "D" sW1 [("/a.rs", "D")]
     (fun _ _ hcon => hcon) (by decide) (by decide) (by decide) (by rfl)⟩

/-! ## Claim C2 -/

theorem str_data_ne_nil {s : String} (h : s ≠ "") : s.data ≠ [] := by
  intro hd0
  apply h
  cases s with
  | mk l =>
    simp only at hd0
    rw [hd0]

/-- C2 counterexample: with the empty `old` string the occurrence contract
fails.  On content `"a"`, `editFile(p, "", "Y")` sees an occurrence count of
`"a".split("").length - 1 = 0`, yet it does not fail with "not found": it
succeeds and rewrites the file to `"Ya"` (JS `includes("")` is always true and
`replace("", "Y")` prepends). -/
theorem edit_empty_old_counterexample :
    occurrencesJS "a".data "".data = 0 ∧
    editFileModel envW [("/f.txt", "a")] (initState 50) "/f.txt" "" "Y" =
      some (.ok "Successfully edited /f.txt (unsupported file type - not tracked)",
        initState 50, [("/f.txt", "Ya")]) :=
  ⟨by decide, by rfl⟩

/-- C2 (amended): for every file and strings `old ≠ ""`, `new`: if the
occurrence count of `old` in the current content (the non-overlapping
left-to-right count, `content.split(old).length - 1`) is zero, `editFile`
fails with the "not found" error and both the file and the state are
unchanged; if it is `n > 1`, `editFile` fails with the error reporting
exactly `n` and file and state are unchanged; if it is exactly one, the
content decomposes as `pre ++ old ++ post` and every completed call succeeds
writing `pre ++ subst ++ post`, where `subst` is `new` with the ECMAScript
replacement patterns expanded (`GetSubstitution`; in particular `subst = new`
whenever `new` contains no dollar sign). -/
theorem edit_occurrence_contract (env : Env) (disk : Disk) (s : ContextState)
    (p oldStr newStr content : String)
    (hne : oldStr ≠ "")
    (hR : diskRead disk (env.resolve p) = some content) :
    (occurrencesJS content.data oldStr.data = 0 →
      editFileModel env disk s p oldStr newStr =
        some (.error (editNotFoundMsg (env.relOf (env.resolve p))), s, disk)) ∧
    (∀ n : Int, occurrencesJS content.data oldStr.data = n → 1 < n →
      editFileModel env disk s p oldStr newStr =
        some (.error (editAmbiguousMsg n (env.relOf (env.resolve p))), s, disk)) ∧
    (occurrencesJS content.data oldStr.data = 1 →
      ∃ pre post : List Char,
        content.data = pre ++ oldStr.data ++ post ∧
        ('$' ∉ newStr.data → getSubstitution oldStr.data pre post newStr.data = newStr.data) ∧
        (∀ res, editFileModel env disk s p oldStr newStr = some res →
          ∃ msg s2, res = (.ok msg, s2,
            diskWrite disk (env.resolve p)
              (String.mk (pre ++ (getSubstitution oldStr.data pre post newStr.data ++ post)))))) := by
  have hdn : oldStr.data ≠ [] := str_data_ne_nil hne
  refine ⟨?_, ?_, ?_⟩
  · intro hocc
    have hni := not_includes_of_occurrencesJS_zero hdn hocc
    simp [editFileModel, hR, hni]
  · intro n hocc hgt
    have hin : strIncludes content.data oldStr.data = true :=
      includes_of_occurrencesJS_pos hdn (by omega)
    simp [editFileModel, hR, hin, hocc, hgt]
  · intro hocc
    have hin : strIncludes content.data oldStr.data = true :=
      includes_of_occurrencesJS_pos hdn (by omega)
    obtain ⟨pre, post, hdecomp, hrepl⟩ := replaceFirstJS_decomp newStr.data hdn hin
    refine ⟨pre, post, hdecomp, getSubstitution_no_dollar oldStr.data pre post newStr.data, ?_⟩
    intro res hres
    rw [← hrepl]
    simp only [editFileModel, hR, hin, Bool.not_true, Bool.false_eq_true, if_false, hocc] at hres
    rw [if_neg (by omega : ¬ ((1 : Int) < 1))] at hres
    by_cases hsupp : isSupportedB env (env.resolve p) = true
    · rw [if_pos hsupp] at hres
      cases hsum : summarizePrevModel env
          (diskWrite disk (env.resolve p)
            (String.mk (replaceFirstJS content.data oldStr.data newStr.data))) s
          (env.resolve p) with
      | none =>
        rw [hsum] at hres
        simp at hres
      | some s1 =>
        rw [hsum] at hres
        simp only [Option.some_bind] at hres
        cases hpar : env.parse (env.resolve p)
            (String.mk (replaceFirstJS content.data oldStr.data newStr.data)) with
        | none =>
          rw [hpar] at hres
          simp only [Option.some.injEq] at hres
          exact ⟨_, _, hres.symm⟩
        | some out =>
          rw [hpar] at hres
          cases out with
          | success f =>
            dsimp only at hres
            cases hss : setSummaryModel env ((setActiveFileModel env s1 (env.resolve p)).2)
                (env.resolve p) f
                (String.mk (replaceFirstJS content.data oldStr.data newStr.data)) with
            | none =>
              rw [hss] at hres
              simp at hres
            | some s3 =>
              rw [hss] at hres
              simp only [Option.map_some', Option.some.injEq] at hres
              exact ⟨_, _, hres.symm⟩
          | failure e =>
            dsimp only at hres
            simp only [Option.some.injEq] at hres
            exact ⟨_, _, hres.symm⟩
    · rw [if_neg hsupp] at hres
      simp only [Option.some.injEq] at hres
      exact ⟨_, _, hres.symm⟩

theorem edit_occurrence_contract_witness :
    ("b" : String) ≠ "" ∧
    diskRead [("/f.txt", "abc")] "/f.txt" = some "abc" ∧
    occurrencesJS "abc".data "b".data = 1 ∧
    ∃ pre post, "abc".data = pre ++ "b".data ++ post ∧
      ('$' ∉ "X".data → getSubstitution "b".data pre post "X".data = "X".data) ∧
      (∀ res, editFileModel envW [("/f.txt", "abc")] (initState 50) "/f.txt" "b" "X" =
          some res →
        ∃ msg s2, res = (.ok msg, s2, diskWrite [("/f.txt", "abc")] "/f.txt"
          (String.mk (pre ++ (getSubstitution "b".data pre post "X".data ++ post))))) :=
  ⟨by decide, rfl, by decide,
   (edit_occurrence_contract envW [("/f.txt", "abc")] (initState 50) "/f.txt" "b" "X" "abc"
      (by decide) rfl).2.2 (by decide)⟩

/-! ## Claim C5 -/

/-- C5 counterexample: `editFile` on a path with an unsupported extension can
still fail: the old-string validation runs *before* the unsupported-type
check, so `editFile("/f.txt", "x", "y")` on content `"b"` throws the
"not found" error instead of completing without error. -/
theorem unsupported_edit_error_counterexample :
    isSupportedB envW "/f.txt" = false ∧
    editFileModel envW [("/f.txt", "b")] (initState 50) "/f.txt" "x" "y" =
      some (.error (editNotFoundMsg "/f.txt"), initState 50, [("/f.txt", "b")]) :=
  ⟨by decide, by rfl⟩

theorem strIncludes_empty_pat (s : List Char) : strIncludes s [] = true := by
  cases s <;> rfl

/-- C5 (amended): for a readable path whose extension has no matching parser,
`readFile`, `peekFile` and `writeFile` complete without error (full content
respectively a success message) and leave the `ContextState` exactly as it
was; `editFile` also leaves the state unchanged in every completed case and
completes without error whenever its old-string validation passes (exactly
one occurrence) — but the validation itself runs before the unsupported-type
check and can still fail (see the counterexample). -/
theorem unsupported_passthrough (env : Env) (disk : Disk) (s : ContextState)
    (p wcontent oldStr newStr content : String)
    (hU : isSupportedB env (env.resolve p) = false)
    (hR : diskRead disk (env.resolve p) = some content) :
    readFileModel env disk s p =
      some (.ok (formatFileHeaderM (env.relOf (env.resolve p)) false ++
        "\n// (Unsupported file type - not tracked for compaction)\n\n" ++ content), s, disk) ∧
    peekFileModel env disk s p =
      some (.ok (formatFileHeaderM (env.relOf (env.resolve p)) false ++
        "\n// (Unsupported file type - returning full contents)\n\n" ++ content), s, disk) ∧
    writeFileModel env disk s p wcontent =
      some (.ok ("Successfully wrote " ++ env.relOf (env.resolve p) ++
        " (unsupported file type - not tracked)"), s,
        diskWrite disk (env.resolve p) wcontent) ∧
    (∀ res, editFileModel env disk s p oldStr newStr = some res → res.2.1 = s) ∧
    (occurrencesJS content.data oldStr.data = 1 →
      editFileModel env disk s p oldStr newStr =
        some (.ok ("Successfully edited " ++ env.relOf (env.resolve p) ++
          " (unsupported file type - not tracked)"), s,
          diskWrite disk (env.resolve p)
            (String.mk (replaceFirstJS content.data oldStr.data newStr.data)))) := by
  refine ⟨?_, ?_, ?_, ?_, ?_⟩
  · simp [readFileModel, hR, hU]
  · simp [peekFileModel, hR, hU]
  · simp [writeFileModel, hU]
  · intro res hres
    simp only [editFileModel, hR] at hres
    by_cases hin : strIncludes content.data oldStr.data = true
    · simp only [hin, Bool.not_true, Bool.false_eq_true, if_false] at hres
      by_cases hgt : 1 < occurrencesJS content.data oldStr.data
      · rw [if_pos hgt] at hres
        simp only [Option.some.injEq] at hres
        rw [← hres]
      · rw [if_neg hgt] at hres
        rw [if_neg (by simp [hU])] at hres
        simp only [Option.some.injEq] at hres
        rw [← hres]
    · have hin2 : strIncludes content.data oldStr.data = false := by
        simpa using hin
      simp only [hin2, Bool.not_false, if_true, Option.some.injEq] at hres
      rw [← hres]
  · intro hocc
    have hin : strIncludes content.data oldStr.data = true := by
      cases hcd : oldStr.data with
      | nil => exact hcd ▸ strIncludes_empty_pat content.data
      | cons c cs =>
        exact includes_of_occurrencesJS_pos (by simp [hcd]) (by rw [← hcd]; omega)
    simp only [editFileModel, hR]
    simp only [hin, Bool.not_true, Bool.false_eq_true, if_false, hocc]
    rw [if_neg (by omega : ¬ ((1 : Int) < 1))]
    rw [if_neg (by simp [hU])]

theorem unsupported_passthrough_witness :
    isSupportedB envW "/f.txt" = false ∧
    readFileModel envW [("/f.txt", "ab")] (initState 50) "/f.txt" =
      some (.ok
        "// === /f.txt [FULL] ===\n// (Unsupported file type - not tracked for compaction)\n\nab",
        initState 50, [("/f.txt", "ab")]) :=
  ⟨by decide,
   (unsupported_passthrough envW [("/f.txt", "ab")] (initState 50) "/f.txt" "w" "a" "z" "ab"
      (by decide) rfl).1⟩

/-! ## Claim C6 -/

/-- C6: `forget` returns true iff a summary entry existed for the normalized
path; it always removes the path from the recency list, clears the active
pointer when the path was active, and deletes the cache entry.  In
particular, after a supported `read(A)` whose call completed, `forget(A)`
leaves `getActiveFile() = none` and `getSummary(A) = none`. -/
theorem forget_contract (env : Env) (s : ContextState) (p : String) :
    ((forgetModel env s p).1 = true ↔ (alGet s.summaries (env.normalize p)).isSome = true) ∧
    env.normalize p ∉ (forgetModel env s p).2.accessOrder ∧
    (s.activeFile = some (env.normalize p) → (forgetModel env s p).2.activeFile = none) ∧
    alGet (forgetModel env s p).2.summaries (env.normalize p) = none ∧
    (∀ (disk : Disk) (out : String) (s1 : ContextState) (d1 : Disk) (A : String),
      isSupportedB env (env.resolve A) = true →
      readFileModel env disk s A = some (.ok out, s1, d1) →
      (forgetModel env s1 (env.resolve A)).2.activeFile = none ∧
      alGet (forgetModel env s1 (env.resolve A)).2.summaries
        (env.normalize (env.resolve A)) = none) := by
  refine ⟨Iff.rfl, ?_, ?_, ?_, ?_⟩
  · simp [forgetModel, List.mem_filter]
  · intro h
    simp [forgetModel, h]
  · exact alGet_delete_self _ _
  · intro disk out s1 d1 A hsupA hread
    simp only [readFileModel] at hread
    cases hd : diskRead disk (env.resolve A) with
    | none =>
      rw [hd] at hread
      simp at hread
    | some content =>
      rw [hd] at hread
      dsimp only at hread
      rw [if_pos hsupA] at hread
      cases hsum : summarizePrevModel env disk s (env.resolve A) with
      | none =>
        rw [hsum] at hread
        simp at hread
      | some s2 =>
        rw [hsum] at hread
        simp only [Option.map_some', Option.some.injEq, Prod.mk.injEq] at hread
        obtain ⟨_, hstate, _⟩ := hread
        constructor
        · rw [← hstate]
          simp [forgetModel, setActiveFileModel]
        · exact alGet_delete_self _ _

theorem forget_contract_witness :
    isSupportedB envW "/a.rs" = true ∧
    readFileModel envW [("/a.rs", "code")] (initState 50) "/a.rs" =
      some (.ok "// === /a.rs [FULL] ===\n\ncode", sW3, [("/a.rs", "code")]) ∧
    ((forgetModel envW sW3 "/a.rs").2.activeFile = none ∧
      alGet (forgetModel envW sW3 "/a.rs").2.summaries "/a.rs" = none) :=
  ⟨by decide, by rfl,
   (forget_contract envW (initState 50) "/a.rs").2.2.2.2 [("/a.rs", "code")]
     "// === /a.rs [FULL] ===\n\ncode" sW3 [("/a.rs", "code")] "/a.rs" (by decide) (by rfl)⟩
